import Mathlib

/-!
Shallow embedding of the poker tournament engine (hand evaluator, betting
state machine, payout logic) together with theorems checking the specified
properties against it.

Conventions of the embedding:
* JavaScript numbers holding chip amounts, bets and card values are embedded
  as `Int`; all arithmetic in the engine is integer arithmetic (`Math.floor`
  on an integer is the identity and is noted where it occurs).
* The mutable `GameState` object is embedded as an immutable structure; each
  source function returns the updated state.  The source mutates player
  objects shared between the old and the new state through a shallow copy
  (`{ ...game }`); reads that happen after such a mutation are embedded as
  reads of the already-updated value, which is noted where it matters.
* `Array.prototype.sort` is a stable sort (ES2019); it is embedded as
  `List.insertionSort`, a stable sort, over the comparator's preorder.
* Logging and rendering are presentation-layer effects and are omitted.
-/

/-- A playing card: display rank, suit symbol, and numeric value 2–14. -/
structure Card where
  rank : String
  suit : String
  value : Int
deriving DecidableEq

def defaultCard : Card := ⟨"", "", 0⟩

/-- Result of evaluating a five-card hand: category rank 0–9, display name,
tie-break kicker sequence and the high card value. -/
structure HandEval where
  rank : Int
  name : String
  kickers : List Int
  highCard : Int
deriving DecidableEq

def defaultEval : HandEval := ⟨0, "High Card", [], 0⟩

/-- A seat at the table. -/
structure Player where
  id : String
  name : String
  chips : Int
  hand : List Card
  bet : Int
  folded : Bool
  allIn : Bool
  position : Nat
  connected : Bool
  hasActed : Bool
  eliminated : Bool
deriving DecidableEq

def defaultPlayer : Player :=
  { id := "", name := "", chips := 0, hand := [], bet := 0, folded := false,
    allIn := false, position := 0, connected := false, hasActed := false,
    eliminated := false }

inductive Phase where
  | waiting | preflop | flop | turn | river | showdown | tournament_complete
deriving DecidableEq

inductive Mode where
  | standard | oracle | silent | ritual | nobluff
deriving DecidableEq

/-- The table state.  The source stores `winner`/`tournamentWinner` as
references to `Player` objects shared with the `players` array; they are
embedded as seat indices. -/
structure GameState where
  id : String
  players : List Player
  communityCards : List Card
  pot : Int
  currentBet : Int
  phase : Phase
  activePlayerIndex : Nat
  dealerIndex : Nat
  smallBlind : Int
  bigBlind : Int
  mode : Mode
  winner : Option Nat
  tournamentWinner : Option Nat
  deck : List Card
  deckIndex : Nat
  bettingComplete : Bool
  handNumber : Nat
deriving DecidableEq

/-! ### Hand evaluator -/

/-- Kicker comparison against an exhausted left sequence: the source loop
reads a missing entry as 0, so the result is the first nonzero entry of the
remaining right sequence. -/
def cmpNil : List Int → Int
  | [] => 0
  | b :: bs => if b ≠ 0 then b else cmpNil bs

/-- The kicker loop of `compareHands`: element-by-element over the longer of
the two sequences, a missing entry read as 0, the first difference `k1 ≠ k2`
returning `k2 - k1`. -/
def cmpK : List Int → List Int → Int
  | [], bs => cmpNil bs
  | a :: as, [] => if a ≠ 0 then -a else cmpK as []
  | a :: as, b :: bs => if a ≠ b then b - a else cmpK as bs

/-- Comparator over evaluated hands: category difference first (negative when
the first hand has the higher category), then the kicker loop. -/
def compareHands (h1 h2 : HandEval) : Int :=
  if h1.rank ≠ h2.rank then h2.rank - h1.rank else cmpK h1.kickers h2.kickers

/-- Maximum of a list (`Math.max(...xs)`; only applied to nonempty lists in
the source). -/
def listMax : List Int → Int
  | [] => 0
  | x :: xs => xs.foldl max x

/-- Minimum of a list (`Math.min(...xs)`; only applied to nonempty lists in
the source). -/
def listMin : List Int → Int
  | [] => 0
  | x :: xs => xs.foldl min x

/-- Evaluate exactly five cards, mirroring `evaluateFiveCardHand`.  Rank
counts are kept as a JavaScript object with integer keys, whose iteration
order is ascending numeric; that order is reproduced by sorting the distinct
values ascending. -/
def evaluateFiveCardHand (cards : List Card) : HandEval :=
  let sorted := List.insertionSort (fun a b : Card => b.value ≤ a.value) cards
  let values := sorted.map (fun c => c.value)
  let keys := (List.insertionSort (fun a b : Int => a ≤ b) (cards.map (fun c => c.value))).dedup
  let cnt := fun (v : Int) => cards.countP (fun c => c.value == v)
  let counts := List.insertionSort (fun a b : Nat => b ≤ a) (keys.map cnt)
  let pairs := List.insertionSort (fun a b : Int => b ≤ a) (keys.filter (fun v => 2 ≤ cnt v))
  let isFlush := (sorted.map (fun c => c.suit)).dedup.length == 1
  let v0 := values.getD 0 0
  let regularStraight := (v0 - values.getD 4 0 == 4) && (values.dedup.length == 5)
  let wheel := !regularStraight && values.contains 14 && values.contains 2 &&
    values.contains 3 && values.contains 4 && values.contains 5
  let isStraight := regularStraight || wheel
  let straightHigh : Int := if regularStraight then v0 else if wheel then 5 else 0
  let highCard := v0
  let kickers := values
  if isStraight && isFlush then
    if straightHigh == 14 then ⟨9, "Royal Flush", [], 14⟩
    else ⟨8, "Straight Flush", [straightHigh], straightHigh⟩
  else if counts.getD 0 0 == 4 then
    let quadVal := (keys.find? (fun v => cnt v == 4)).getD 0
    ⟨7, "Four of a Kind", [quadVal], quadVal⟩
  else if counts.getD 0 0 == 3 && counts.getD 1 0 == 2 then
    let trips := (keys.find? (fun v => cnt v == 3)).getD 0
    let pairV := (keys.find? (fun v => cnt v == 2)).getD 0
    ⟨6, "Full House", [trips, pairV], trips⟩
  else if isFlush then ⟨5, "Flush", kickers, highCard⟩
  else if isStraight then ⟨4, "Straight", [straightHigh], straightHigh⟩
  else if counts.getD 0 0 == 3 then
    let trips := (keys.find? (fun v => cnt v == 3)).getD 0
    ⟨3, "Three of a Kind", [trips], trips⟩
  else if counts.getD 0 0 == 2 && counts.getD 1 0 == 2 then
    let highPair := listMax pairs
    let lowPair := listMin pairs
    ⟨2, "Two Pair", [highPair, lowPair], highPair⟩
  else if counts.getD 0 0 == 2 then
    let pairV := pairs.getD 0 0
    ⟨1, "Pair", [pairV], pairV⟩
  else ⟨0, "High Card", kickers, highCard⟩

/-- All length-`k` subsets of a list, in the order produced by the source's
nested index loops (subsets containing the first card first). -/
def combosLen {α : Type} : Nat → List α → List (List α)
  | 0, _ => [[]]
  | _ + 1, [] => []
  | k + 1, x :: xs => ((combosLen k xs).map (fun t => x :: t)) ++ combosLen (k + 1) xs

/-- Evaluate 5–7 cards by scanning every five-card subset, keeping the first
strictly best evaluation (`evaluateHand`). -/
def evaluateHand (cards : List Card) : HandEval :=
  if cards.length < 5 then ⟨0, "High Card", [], 0⟩
  else
    ((combosLen 5 cards).foldl
      (fun best hand =>
        let e := evaluateFiveCardHand hand
        match best with
        | none => some e
        | some b => if compareHands e b < 0 then some e else some b)
      none).getD ⟨0, "High Card", [], 0⟩

/-! ### Betting state machine -/

/-- A contender: a seat that is not folded, not all-in, not eliminated. -/
def contenderQual (p : Player) : Bool := !p.folded && !p.allIn && !p.eliminated

def dealerQual (p : Player) : Bool := !p.eliminated

def contendersOf (g : GameState) : List Player := g.players.filter contenderQual

/-- Round-closure predicate `isBettingComplete`. -/
def isBettingComplete (g : GameState) : Bool :=
  let ap := contendersOf g
  if ap.length ≤ 1 then true
  else ap.all (fun p => p.hasActed) && ap.all (fun p => p.bet == g.currentBet || p.allIn)

/-- One bounded cyclic scan: starting at `idx`, up to `fuel` probes, return
the first index whose seat satisfies `q`.  Mirrors the `attempts` counter of
the source loops. -/
def scanFrom (ps : List Player) (q : Player → Bool) : Nat → Nat → Option Nat
  | _, 0 => none
  | idx, fuel + 1 =>
    match ps.get? idx with
    | some p => if q p then some idx else scanFrom ps q ((idx + 1) % ps.length) fuel
    | none => none

/-- The `getNextActivePlayer` scan: one full cycle after the active index for a
contender; fall back to the unchanged active index. -/
def getNextActivePlayer (g : GameState) : Nat :=
  (scanFrom g.players contenderQual ((g.activePlayerIndex + 1) % g.players.length)
    g.players.length).getD g.activePlayerIndex

/-- The `getNextDealerIndex` scan: one full cycle after the dealer index for a
non-eliminated seat; fall back to the unchanged dealer index. -/
def getNextDealerIndex (g : GameState) : Nat :=
  (scanFrom g.players dealerQual ((g.dealerIndex + 1) % g.players.length)
    g.players.length).getD g.dealerIndex

/-- Player actions accepted by `handlePlayerAction`. -/
inductive PAction where
  | fold | call | raise (amount : Int) | allin
deriving DecidableEq

/-- The `forEach` reopening a round after a raise: clear `hasActed` for every
seat other than `i` that is a contender.  `j` is the index of the first
element of the list being processed. -/
def clearOthersFrom (i : Nat) : Nat → List Player → List Player
  | _, [] => []
  | j, p :: ps =>
    (if j != i && contenderQual p then { p with hasActed := false } else p) ::
      clearOthersFrom i (j + 1) ps

/-- A fold applied to a seat. -/
def foldedSeat (p : Player) : Player := { p with folded := true, hasActed := true }

/-- A call applied to a seat: the amount is `min(currentBet - bet, chips)`
computed from the pre-action seat; the all-in check then compares that amount
against the shared player object which has already been debited, so it reads
the post-debit stack. -/
def calledSeat (p : Player) (currentBet : Int) : Player :=
  let callAmount := min (currentBet - p.bet) p.chips
  let p1 := { p with chips := p.chips - callAmount, bet := p.bet + callAmount, hasActed := true }
  if callAmount = p1.chips then { p1 with allIn := true } else p1

/-- A raise applied to a seat: the total bet is `min(amount, chips + bet)`
from the pre-action seat, the delta is debited; the all-in check again reads
the already-debited stack. -/
def raisedSeat (p : Player) (amount : Int) : Player :=
  let totalBet := min amount (p.chips + p.bet)
  let additionalBet := totalBet - p.bet
  let p1 := { p with chips := p.chips - additionalBet, bet := totalBet, hasActed := true }
  if additionalBet = p1.chips then { p1 with allIn := true } else p1

/-- An all-in applied to a seat: the whole stack moves to the bet. -/
def allinSeat (p : Player) : Player :=
  { p with chips := 0, bet := p.chips + p.bet, allIn := true, hasActed := true }

/-- The action switch of `handlePlayerAction`, acting on the active seat.
The source resolves the submitting player's name to an index and rejects the
action when that index is not the active one; this embedding covers the
accepted path, where the acting index is exactly `activePlayerIndex`. -/
def applySwitch (g : GameState) (act : PAction) : GameState :=
  let i := g.activePlayerIndex
  let p := g.players.getD i defaultPlayer
  match act with
  | .fold =>
    { g with players := g.players.set i (foldedSeat p) }
  | .call =>
    { g with players := g.players.set i (calledSeat p g.currentBet) }
  | .raise amount =>
    if amount ≠ 0 ∧ amount > g.currentBet then
      { g with players := clearOthersFrom i 0 (g.players.set i (raisedSeat p amount)),
               currentBet := min amount (p.chips + p.bet) }
    else g
  | .allin =>
    if p.chips + p.bet > g.currentBet then
      { g with players := clearOthersFrom i 0 (g.players.set i (allinSeat p)),
               currentBet := p.chips + p.bet }
    else
      { g with players := g.players.set i (allinSeat p) }

/-- The tail of `handlePlayerAction`: recompute the round-closure flag and,
when the round is not closed, advance the turn. -/
def finishAction (s : GameState) : GameState :=
  let b := isBettingComplete s
  { s with bettingComplete := b,
           activePlayerIndex := if b then s.activePlayerIndex else getNextActivePlayer s }

/-- Apply `handlePlayerAction` on the active seat. -/
def handlePlayerAction (g : GameState) (act : PAction) : GameState :=
  finishAction (applySwitch g act)

/-! ### AI action path -/

/-- A decision returned by the (stochastic, hence externally supplied)
decision policy `makeAIDecision`; the AI switch handles fold, call and
raise. -/
inductive Decision where
  | fold | call | raise (amount : Int)
deriving DecidableEq

/-- The action switch of `executeAIAction`; its fold, call and raise cases
are textually identical to the human switch (`Math.floor` of the integer
minimum in the raise branch is the identity), so they share the seat-update
helpers. -/
def aiSwitch (g : GameState) (d : Decision) : GameState :=
  let i := g.activePlayerIndex
  let p := g.players.getD i defaultPlayer
  match d with
  | .fold =>
    { g with players := g.players.set i (foldedSeat p) }
  | .call =>
    { g with players := g.players.set i (calledSeat p g.currentBet) }
  | .raise amount =>
    if amount ≠ 0 ∧ amount > g.currentBet then
      { g with players := clearOthersFrom i 0 (g.players.set i (raisedSeat p amount)),
               currentBet := min amount (p.chips + p.bet) }
    else g

/-- Sum of a projection over the seats. -/
def sumBy (f : Player → Int) (ps : List Player) : Int := (ps.map f).sum

/-- Sum of live bets, `players.reduce((sum, p) => sum + p.bet, 0)`. -/
def betSum (g : GameState) : Int := sumBy (fun p => p.bet) g.players

/-- Total chips in the state: stacks plus live bets plus pot. -/
def chipTotal (g : GameState) : Int :=
  sumBy (fun p => p.chips) g.players + betSum g + g.pot

/-- Seats paired with their indices, filtered by `q`; `k` is the index of the
first listed seat.  Stands in for the source's filters over shared player
objects, with the index playing the role of object identity. -/
def enumFilterFrom (q : Player → Bool) : Nat → List Player → List (Nat × Player)
  | _, [] => []
  | k, p :: ps =>
    if q p then (k, p) :: enumFilterFrom q (k + 1) ps else enumFilterFrom q (k + 1) ps

/-- A live seat for payout purposes: not folded and not eliminated. -/
def aliveQual (p : Player) : Bool := !p.folded && !p.eliminated

def aliveSeats (g : GameState) : List (Nat × Player) := enumFilterFrom aliveQual 0 g.players

/-- The early-win payout block of `executeAIAction`: the sole live seat is
credited the pot plus all live bets, the pot field is set to that amount (it
is kept for display), the phase jumps to showdown and all bets are cleared. -/
def earlyWinPay (s : GameState) (w : Nat × Player) : GameState :=
  let totalBets := betSum s
  let winAmount := s.pot + totalBets
  let credited := s.players.set w.1 { w.2 with chips := w.2.chips + winAmount }
  { s with players := credited.map (fun p => { p with bet := 0 }),
           winner := some w.1, pot := winAmount, phase := Phase.showdown,
           bettingComplete := true, currentBet := 0 }

/-- The state of `executeAIAction` after its switch: the round-closure flag is recomputed. -/
def aiChecked (g : GameState) (d : Decision) : GameState :=
  let s := aiSwitch g d
  { s with bettingComplete := isBettingComplete s }

/-- Run `executeAIAction` for a supplied decision: apply the switch, recompute
closure, pay an early win when exactly one live seat remains, otherwise
advance the turn when the round stays open. -/
def executeAIAction (g : GameState) (d : Decision) : GameState :=
  let s := aiChecked g d
  if s.bettingComplete then
    if (aliveSeats s).length = 1 then earlyWinPay s ((aliveSeats s).getD 0 (0, defaultPlayer))
    else s
  else { s with activePlayerIndex := getNextActivePlayer s }

/-! ### Phase advance and showdown -/

/-- The opening of `advancePhase`: move all live bets into the pot, clear
bets and `hasActed`, reset the current bet and the closure flag. -/
def collectBets (g : GameState) : GameState :=
  { g with pot := g.pot + betSum g,
           players := g.players.map (fun p => { p with bet := 0, hasActed := false }),
           currentBet := 0, bettingComplete := false }

/-- Hand evaluations of the live seats, stably sorted by the comparator
(strongest first), as in the showdown branch. -/
def showdownSorted (s : GameState) : List (Nat × HandEval) :=
  List.insertionSort (fun a b : Nat × HandEval => compareHands a.2 b.2 ≤ 0)
    ((aliveSeats s).map (fun ip => (ip.1, evaluateHand (ip.2.hand ++ s.communityCards))))

/-- Credit `amt` chips to every seat whose index is listed in `tied`; `j` is
the index of the first listed seat. -/
def creditSeatsFrom (tied : List Nat) (amt : Int) : Nat → List Player → List Player
  | _, [] => []
  | j, p :: ps =>
    (if tied.contains j then { p with chips := p.chips + amt } else p) ::
      creditSeatsFrom tied amt (j + 1) ps

/-- Award the whole pot to seat `i` (the pot field is not cleared; it is kept
for display). -/
def soleWin (s : GameState) (i : Nat) : GameState :=
  let pw := s.players.getD i defaultPlayer
  { s with players := s.players.set i { pw with chips := pw.chips + s.pot },
           winner := some i, bettingComplete := true }

/-- The river case of `advancePhase`: enter showdown, award the pot to the
last live seat if only one remains, otherwise evaluate, sort, and either pay
the sole best hand or split the pot evenly (floored) among the tied seats,
zeroing the pot in the split case only. -/
def resolveShowdown (s0 : GameState) : GameState :=
  let s := { s0 with phase := Phase.showdown }
  let ap := aliveSeats s
  if ap.length = 1 then soleWin s (ap.getD 0 (0, defaultPlayer)).1
  else
    let sorted := showdownSorted s
    let w := sorted.getD 0 (0, defaultEval)
    match sorted.get? 1 with
    | some snd =>
      if compareHands w.2 snd.2 = 0 then
        let tied := (sorted.filter (fun hv => compareHands hv.2 w.2 == 0)).map (fun hv => hv.1)
        let split := Int.fdiv s.pot (tied.length : Int)
        { s with players := creditSeatsFrom tied split 0 s.players, pot := 0,
                 winner := none, bettingComplete := true }
      else soleWin s w.1
    | none => soleWin s w.1

/-- The post-switch turn recomputation of `advancePhase`: seat after the
dealer in the non-eliminated cyclic order (a JavaScript falsy check sends
index 0 to the first non-eliminated seat; a missing dealer position behaves
as position −1).  The source then skips folded or eliminated seats in an
unbounded while-loop that can spin forever when no contender exists; it is
bounded here by the seat count — the loop only determines the next active
index and never touches chip accounting. -/
def skipFoldedLoop (s : GameState) : Nat → Nat → Nat
  | 0, idx => idx
  | fuel + 1, idx =>
    let p := s.players.getD idx defaultPlayer
    if p.folded || p.eliminated then
      skipFoldedLoop s fuel (getNextActivePlayer { s with activePlayerIndex := idx })
    else idx

def advanceIndexAfterPhase (s : GameState) : Nat :=
  let ap := enumFilterFrom dealerQual 0 s.players
  let dlrNext :=
    match ap.findIdx? (fun ip => ip.1 == s.dealerIndex) with
    | some k => (k + 1) % ap.length
    | none => 0
  let cand := (ap.getD dlrNext (0, defaultPlayer)).1
  let base := if cand = 0 then (ap.getD 0 (0, defaultPlayer)).1 else cand
  skipFoldedLoop s s.players.length base

/-- The `advancePhase` transition: rejected while the round is open (except at showdown);
otherwise collect bets, then deal or resolve according to the phase, then
recompute the active seat unless the hand reached showdown. -/
def advancePhase (g : GameState) : GameState :=
  if g.bettingComplete = false ∧ g.phase ≠ Phase.showdown then g
  else
    let s := collectBets g
    let s :=
      match g.phase with
      | Phase.preflop =>
        let flopCards := [s.deck.getD s.deckIndex defaultCard,
          s.deck.getD (s.deckIndex + 1) defaultCard, s.deck.getD (s.deckIndex + 2) defaultCard]
        { s with communityCards := flopCards, deckIndex := s.deckIndex + 3, phase := Phase.flop }
      | Phase.flop =>
        let next := s.communityCards ++ [s.deck.getD s.deckIndex defaultCard]
        { s with communityCards := next, deckIndex := s.deckIndex + 1, phase := Phase.turn }
      | Phase.turn =>
        let next := s.communityCards ++ [s.deck.getD s.deckIndex defaultCard]
        { s with communityCards := next, deckIndex := s.deckIndex + 1, phase := Phase.river }
      | Phase.river => resolveShowdown s
      | _ => s
    if s.phase ≠ Phase.showdown then { s with activePlayerIndex := advanceIndexAfterPhase s }
    else s

/-- Kicker sequence read with missing entries as 0, as the comparator loop
does. -/
def pad (l : List Int) (i : Nat) : Int := l.getD i 0

/-! ### Concrete states used by counterexamples and witnesses -/

/-- A seat with the given stack, live bet and flags. -/
def mkSeat (nm : String) (chips bet : Int) (folded acted : Bool) : Player :=
  { id := nm, name := nm, chips := chips, hand := [], bet := bet, folded := folded,
    allIn := false, position := 0, connected := true, hasActed := acted,
    eliminated := false }

/-- A table over the given seats, current bet, pot, phase and active seat. -/
def mkTable (ps : List Player) (cb pot : Int) (ph : Phase) (active : Nat) : GameState :=
  { id := "t", players := ps, communityCards := [], pot := pot, currentBet := cb,
    phase := ph, activePlayerIndex := active, dealerIndex := 0, smallBlind := 10,
    bigBlind := 20, mode := Mode.standard, winner := none, tournamentWinner := none,
    deck := [], deckIndex := 0, bettingComplete := false, handNumber := 1 }

/-- Table for the C2 counterexample: two fresh contenders, current bet 20,
seat 0 to act. -/
def gInvalidRaise : GameState :=
  mkTable [mkSeat "A" 1000 0 false false, mkSeat "B" 1000 20 false false] 20 0
    Phase.preflop 0

/-- Table for the C3 bug: seat 0 owes its whole stack of 100. -/
def gFullCall : GameState :=
  mkTable [mkSeat "A" 100 0 false false, mkSeat "B" 1000 100 false true] 100 0
    Phase.preflop 0

/-- Table for the C3 bug: seat 0 owes exactly half its stack of 100. -/
def gHalfCall : GameState :=
  mkTable [mkSeat "A" 100 0 false false, mkSeat "B" 1000 50 false true] 50 0
    Phase.preflop 0

/-- Table for the C9 witness: every seat folded or eliminated. -/
def gAllFolded : GameState :=
  mkTable [mkSeat "A" 100 0 true true, mkSeat "B" 100 0 true true] 0 0 Phase.preflop 0

/-- Table for the C4 witness: the specified 6-seat scenario, blinds 10/20
posted by seats 2 and 3, seat 4 to act. -/
def gRaiseScenario : GameState :=
  mkTable
    [mkSeat "P0" 1000 0 false false, mkSeat "P1" 1000 0 false false,
     mkSeat "P2" 990 10 false false, mkSeat "P3" 980 20 false true,
     mkSeat "P4" 1000 0 false false, mkSeat "P5" 1000 0 false false]
    20 0 Phase.preflop 4

/-- Table for the C6 counterexample and witness: seat 1 is the only other
seat; pot 30, seat 1 has bet 100; seat 0 to act. -/
def gHumanFoldClose : GameState :=
  mkTable [mkSeat "A" 100 0 false false, mkSeat "B" 500 100 false true] 100 30
    Phase.preflop 0

/-- Concrete table witnessing non-conservation at an AI early win. -/
def gEarlyTotal : GameState :=
  mkTable [mkSeat "A" 100 0 false false, mkSeat "B" 500 100 false true] 100 30
    Phase.preflop 0

/-- The state on which the showdown branch operates: bets collected, phase
set to showdown. -/
def showdownState (g : GameState) : GameState :=
  { collectBets g with phase := Phase.showdown }

/-- Table for the C10 witness: river reached, round closed, pot 101, both
seats playing the board (a royal flush), so they tie. -/
def gSplit : GameState :=
  { id := "t"
    players := [{ mkSeat "A" 1000 0 false false with
                    hand := [⟨"2", "H", 2⟩, ⟨"3", "D", 3⟩] },
                { mkSeat "B" 800 0 false false with
                    hand := [⟨"2", "D", 2⟩, ⟨"3", "C", 3⟩] }]
    communityCards := [⟨"A", "S", 14⟩, ⟨"K", "S", 13⟩, ⟨"Q", "S", 12⟩,
                       ⟨"J", "S", 11⟩, ⟨"T", "S", 10⟩]
    pot := 101
    currentBet := 0
    phase := Phase.river
    activePlayerIndex := 0
    dealerIndex := 0
    smallBlind := 10
    bigBlind := 20
    mode := Mode.standard
    winner := none
    tournamentWinner := none
    deck := []
    deckIndex := 0
    bettingComplete := true
    handNumber := 1 }

/-! ### Comparator lemmas -/

theorem cmpK_nil_left (bs : List Int) : cmpK [] bs = cmpNil bs := rfl

theorem cmpK_nil_right : ∀ bs : List Int, cmpK bs [] = -cmpNil bs
  | [] => rfl
  | b :: bs => by
    by_cases hb : b = 0 <;> simp [cmpK, cmpNil, hb, cmpK_nil_right bs]

theorem cmpK_self : ∀ l : List Int, cmpK l l = 0
  | [] => rfl
  | a :: as => by simp [cmpK, cmpK_self as]

theorem cmpK_anti : ∀ a b : List Int, cmpK a b = -cmpK b a
  | [], b => by rw [cmpK_nil_left, cmpK_nil_right, neg_neg]
  | a :: as, [] => by rw [cmpK_nil_right, cmpK_nil_left]
  | a :: as, b :: bs => by
    by_cases hab : a = b
    · simp [cmpK, hab, cmpK_anti as bs]
    · simp only [cmpK, if_pos hab, if_pos (Ne.symm hab)]
      omega

theorem pad_nil (i : Nat) : pad [] i = 0 := by simp [pad]

theorem pad_cons_zero (a : Int) (l : List Int) : pad (a :: l) 0 = a := rfl

theorem pad_cons_succ (a : Int) (l : List Int) (i : Nat) : pad (a :: l) (i + 1) = pad l i := rfl

theorem cmpK_eq_zero_iff : ∀ a b : List Int, cmpK a b = 0 ↔ ∀ i, pad a i = pad b i := by
  have key : ∀ n (a b : List Int), a.length + b.length ≤ n →
      (cmpK a b = 0 ↔ ∀ i, pad a i = pad b i) := by
    intro n
    induction n with
    | zero =>
      intro a b hlen
      match a, b with
      | [], [] => simp [cmpK, cmpNil, pad]
      | [], _ :: _ => simp at hlen
      | _ :: _, _ => simp at hlen
    | succ n ih =>
      intro a b hlen
      match a, b with
      | [], [] => simp [cmpK, cmpNil, pad]
      | [], b :: bs =>
        by_cases hb : b = 0
        · have hs : cmpK [] (b :: bs) = cmpK [] bs := by simp [cmpK, cmpNil, hb]
          rw [hs, ih [] bs (by simp at hlen ⊢; omega)]
          constructor
          · intro h i
            cases i with
            | zero => simp [pad, hb]
            | succ j => simpa [pad_cons_succ] using h j
          · intro h i
            simpa [pad_cons_succ] using h (i + 1)
        · have hs : cmpK [] (b :: bs) = b := by simp [cmpK, cmpNil, hb]
          rw [hs]
          constructor
          · intro h
            exact absurd h hb
          · intro h
            have h0 := h 0
            rw [pad_nil, pad_cons_zero] at h0
            exact absurd h0.symm hb
      | a :: as, [] =>
        by_cases ha : a = 0
        · have hs : cmpK (a :: as) [] = cmpK as [] := by simp [cmpK, ha]
          rw [hs, ih as [] (by simp at hlen ⊢; omega)]
          constructor
          · intro h i
            cases i with
            | zero => simp [pad, ha]
            | succ j => simpa [pad_cons_succ] using h j
          · intro h i
            simpa [pad_cons_succ] using h (i + 1)
        · have hs : cmpK (a :: as) [] = -a := by simp [cmpK, ha]
          rw [hs]
          constructor
          · intro h
            exact absurd (by omega : a = 0) ha
          · intro h
            have h0 := h 0
            rw [pad_nil, pad_cons_zero] at h0
            exact absurd h0 ha
      | a :: as, b :: bs =>
        by_cases hab : a = b
        · have hs : cmpK (a :: as) (b :: bs) = cmpK as bs := by simp [cmpK, hab]
          rw [hs, ih as bs (by simp at hlen ⊢; omega)]
          constructor
          · intro h i
            cases i with
            | zero => simp [pad, hab]
            | succ j => simpa [pad_cons_succ] using h j
          · intro h i
            simpa [pad_cons_succ] using h (i + 1)
        · have hs : cmpK (a :: as) (b :: bs) = b - a := by simp [cmpK, hab]
          rw [hs]
          constructor
          · intro h
            exact absurd (by omega : a = b) hab
          · intro h
            have h0 := h 0
            rw [pad_cons_zero, pad_cons_zero] at h0
            exact absurd h0 hab
  intro a b
  exact key (a.length + b.length) a b le_rfl

theorem cmpK_neg_iff : ∀ a b : List Int,
    cmpK a b < 0 ↔ ∃ i, pad b i < pad a i ∧ ∀ j < i, pad a j = pad b j := by
  have key : ∀ n (a b : List Int), a.length + b.length ≤ n →
      (cmpK a b < 0 ↔ ∃ i, pad b i < pad a i ∧ ∀ j < i, pad a j = pad b j) := by
    intro n
    induction n with
    | zero =>
      intro a b hlen
      match a, b with
      | [], [] => simp [cmpK, cmpNil, pad]
      | [], _ :: _ => simp at hlen
      | _ :: _, _ => simp at hlen
    | succ n ih =>
      intro a b hlen
      match a, b with
      | [], [] => simp [cmpK, cmpNil, pad]
      | [], b :: bs =>
        by_cases hb : b = 0
        · have hs : cmpK [] (b :: bs) = cmpK [] bs := by simp [cmpK, cmpNil, hb]
          rw [hs, ih [] bs (by simp at hlen ⊢; omega)]
          constructor
          · rintro ⟨i, hlt, heq⟩
            refine ⟨i + 1, by simpa [pad_cons_succ] using hlt, ?_⟩
            intro j hj
            cases j with
            | zero => simp [pad, hb]
            | succ j2 => simpa [pad_cons_succ] using heq j2 (by omega)
          · rintro ⟨i, hlt, heq⟩
            cases i with
            | zero =>
              rw [pad_nil, pad_cons_zero, hb] at hlt
              omega
            | succ i2 =>
              refine ⟨i2, by simpa [pad_cons_succ] using hlt, ?_⟩
              intro j hj
              simpa [pad_cons_succ] using heq (j + 1) (by omega)
        · have hs : cmpK [] (b :: bs) = b := by simp [cmpK, cmpNil, hb]
          rw [hs]
          constructor
          · intro h
            refine ⟨0, ?_, by omega⟩
            rw [pad_nil, pad_cons_zero]
            omega
          · rintro ⟨i, hlt, heq⟩
            cases i with
            | zero =>
              rw [pad_nil, pad_cons_zero] at hlt
              omega
            | succ i2 =>
              have h0 := heq 0 (by omega)
              rw [pad_nil, pad_cons_zero] at h0
              exact absurd h0.symm hb
      | a :: as, [] =>
        by_cases ha : a = 0
        · have hs : cmpK (a :: as) [] = cmpK as [] := by simp [cmpK, ha]
          rw [hs, ih as [] (by simp at hlen ⊢; omega)]
          constructor
          · rintro ⟨i, hlt, heq⟩
            refine ⟨i + 1, by simpa [pad_cons_succ] using hlt, ?_⟩
            intro j hj
            cases j with
            | zero => simp [pad, ha]
            | succ j2 => simpa [pad_cons_succ] using heq j2 (by omega)
          · rintro ⟨i, hlt, heq⟩
            cases i with
            | zero =>
              rw [pad_nil, pad_cons_zero, ha] at hlt
              omega
            | succ i2 =>
              refine ⟨i2, by simpa [pad_cons_succ] using hlt, ?_⟩
              intro j hj
              simpa [pad_cons_succ] using heq (j + 1) (by omega)
        · have hs : cmpK (a :: as) [] = -a := by simp [cmpK, ha]
          rw [hs]
          constructor
          · intro h
            refine ⟨0, ?_, by omega⟩
            rw [pad_nil, pad_cons_zero]
            omega
          · rintro ⟨i, hlt, heq⟩
            cases i with
            | zero =>
              rw [pad_nil, pad_cons_zero] at hlt
              omega
            | succ i2 =>
              have h0 := heq 0 (by omega)
              rw [pad_nil, pad_cons_zero] at h0
              exact absurd h0 ha
      | a :: as, b :: bs =>
        by_cases hab : a = b
        · have hs : cmpK (a :: as) (b :: bs) = cmpK as bs := by simp [cmpK, hab]
          rw [hs, ih as bs (by simp at hlen ⊢; omega)]
          constructor
          · rintro ⟨i, hlt, heq⟩
            refine ⟨i + 1, by simpa [pad_cons_succ] using hlt, ?_⟩
            intro j hj
            cases j with
            | zero => simp [pad, hab]
            | succ j2 => simpa [pad_cons_succ] using heq j2 (by omega)
          · rintro ⟨i, hlt, heq⟩
            cases i with
            | zero =>
              rw [pad_cons_zero, pad_cons_zero] at hlt
              omega
            | succ i2 =>
              refine ⟨i2, by simpa [pad_cons_succ] using hlt, ?_⟩
              intro j hj
              simpa [pad_cons_succ] using heq (j + 1) (by omega)
        · have hs : cmpK (a :: as) (b :: bs) = b - a := by simp [cmpK, hab]
          rw [hs]
          constructor
          · intro h
            refine ⟨0, ?_, by omega⟩
            rw [pad_cons_zero, pad_cons_zero]
            omega
          · rintro ⟨i, hlt, heq⟩
            cases i with
            | zero =>
              rw [pad_cons_zero, pad_cons_zero] at hlt
              omega
            | succ i2 =>
              have h0 := heq 0 (by omega)
              rw [pad_cons_zero, pad_cons_zero] at h0
              exact absurd h0 hab
  intro a b
  exact key (a.length + b.length) a b le_rfl

theorem cmpK_trans {a b c : List Int} (hab : cmpK a b < 0) (hbc : cmpK b c < 0) :
    cmpK a c < 0 := by
  rw [cmpK_neg_iff] at hab hbc ⊢
  obtain ⟨i, hi, hieq⟩ := hab
  obtain ⟨k, hk, hkeq⟩ := hbc
  rcases lt_trichotomy i k with h | h | h
  · exact ⟨i, by rw [← hkeq i h]; exact hi, fun j hj => (hieq j hj).trans (hkeq j (by omega))⟩
  · subst h
    exact ⟨i, lt_trans hk hi, fun j hj => (hieq j hj).trans (hkeq j hj)⟩
  · exact ⟨k, by rw [hieq k h]; exact hk, fun j hj => (hieq j (by omega)).trans (hkeq j hj)⟩

theorem compareHands_self (h : HandEval) : compareHands h h = 0 := by
  simp [compareHands, cmpK_self]

theorem compareHands_anti (h1 h2 : HandEval) : compareHands h1 h2 = -compareHands h2 h1 := by
  unfold compareHands
  by_cases hr : h1.rank = h2.rank
  · simp [hr, cmpK_anti h1.kickers h2.kickers]
  · simp only [if_pos hr, if_pos (Ne.symm hr)]
    omega

theorem compareHands_neg_cases (h1 h2 : HandEval) :
    compareHands h1 h2 < 0 ↔
      (h2.rank < h1.rank ∨ (h1.rank = h2.rank ∧ cmpK h1.kickers h2.kickers < 0)) := by
  unfold compareHands
  by_cases hr : h1.rank = h2.rank
  · simp [hr]
  · simp only [if_pos hr]
    constructor
    · intro h
      exact Or.inl (by omega)
    · rintro (h | ⟨he, _⟩)
      · omega
      · exact absurd he hr

theorem compareHands_trans {h1 h2 h3 : HandEval}
    (h12 : compareHands h1 h2 < 0) (h23 : compareHands h2 h3 < 0) :
    compareHands h1 h3 < 0 := by
  rw [compareHands_neg_cases] at h12 h23 ⊢
  rcases h12 with hr12 | ⟨he12, hk12⟩ <;> rcases h23 with hr23 | ⟨he23, hk23⟩
  · exact Or.inl (by omega)
  · exact Or.inl (by omega)
  · exact Or.inl (by omega)
  · exact Or.inr ⟨he12.trans he23, cmpK_trans hk12 hk23⟩

/-! ### List helper lemmas -/

theorem sumBy_nil (f : Player → Int) : sumBy f [] = 0 := rfl

theorem sumBy_cons (f : Player → Int) (p : Player) (ps : List Player) :
    sumBy f (p :: ps) = f p + sumBy f ps := by simp [sumBy]

theorem sumBy_zero (ps : List Player) : sumBy (fun _ => (0 : Int)) ps = 0 := by
  induction ps with
  | nil => rfl
  | cons p ps ih => simp [sumBy_cons, ih]

theorem sumBy_congr (f h : Player → Int) (ps : List Player) (hfh : ∀ p, f p = h p) :
    sumBy f ps = sumBy h ps := by
  induction ps with
  | nil => rfl
  | cons p ps ih => simp [sumBy_cons, ih, hfh]

theorem sumBy_map (f : Player → Int) (t : Player → Player) (ps : List Player) :
    sumBy f (ps.map t) = sumBy (fun p => f (t p)) ps := by
  simp [sumBy, List.map_map]
  rfl

theorem setOOB {α : Type} (ps : List α) (i : Nat) (x : α) (h : ¬ i < ps.length) :
    ps.set i x = ps :=
  List.set_eq_of_length_le (by omega)

theorem getD_set_eq {α : Type} (ps : List α) (i : Nat) (x d : α) (h : i < ps.length) :
    (ps.set i x).getD i d = x := by
  simp [List.getD, List.getElem?_set_self, h]

theorem getD_set_neq {α : Type} (ps : List α) (i j : Nat) (x d : α) (h : j ≠ i) :
    (ps.set i x).getD j d = ps.getD j d := by
  simp [List.getD, List.getElem?_set_ne (Ne.symm h)]

theorem getD_map_lt {α β : Type} (f : α → β) (l : List α) (i : Nat) (d : β) (d0 : α)
    (h : i < l.length) : (l.map f).getD i d = f (l.getD i d0) := by
  simp [List.getD, List.getElem?_map, List.getElem?_eq_getElem h]

theorem sumBy_set (f : Player → Int) : ∀ (ps : List Player) (i : Nat) (x : Player),
    i < ps.length →
    sumBy f (ps.set i x) = sumBy f ps - f (ps.getD i defaultPlayer) + f x
  | [], i, x, h => by simp at h
  | p :: ps, 0, x, h => by
    simp [sumBy_cons, List.set]
    ring
  | p :: ps, i + 1, x, h => by
    have ih := sumBy_set f ps i x (by simpa using h)
    simp only [List.set, sumBy_cons, List.getD_cons_succ, ih]
    ring

theorem clearOthersFrom_length (i : Nat) : ∀ (k : Nat) (ps : List Player),
    (clearOthersFrom i k ps).length = ps.length
  | _, [] => rfl
  | k, p :: ps => by simp [clearOthersFrom, clearOthersFrom_length i (k + 1) ps]

theorem clearOthersFrom_sumBy (f : Player → Int)
    (hf : ∀ p, f { p with hasActed := false } = f p) (i : Nat) :
    ∀ (k : Nat) (ps : List Player), sumBy f (clearOthersFrom i k ps) = sumBy f ps
  | _, [] => rfl
  | k, p :: ps => by
    have ih := clearOthersFrom_sumBy f hf i (k + 1) ps
    by_cases hc : (k != i && contenderQual p) = true <;>
      simp [clearOthersFrom, hc, sumBy_cons, ih, hf]

theorem clearOthersFrom_getD (i : Nat) : ∀ (k j : Nat) (ps : List Player),
    j < ps.length →
    (clearOthersFrom i k ps).getD j defaultPlayer =
      (if ((k + j) != i && contenderQual (ps.getD j defaultPlayer)) = true
       then { ps.getD j defaultPlayer with hasActed := false }
       else ps.getD j defaultPlayer)
  | k, j, [], h => by simp at h
  | k, 0, p :: ps, h => by simp [clearOthersFrom]
  | k, j + 1, p :: ps, h => by
    have ih := clearOthersFrom_getD i (k + 1) j ps (by simpa using h)
    simp only [clearOthersFrom, List.getD_cons_succ, ih]
    have harith : k + 1 + j = k + (j + 1) := by omega
    rw [harith]

theorem creditSeatsFrom_length (tied : List Nat) (amt : Int) : ∀ (k : Nat) (ps : List Player),
    (creditSeatsFrom tied amt k ps).length = ps.length
  | _, [] => rfl
  | k, p :: ps => by simp [creditSeatsFrom, creditSeatsFrom_length tied amt (k + 1) ps]

theorem creditSeatsFrom_getD (tied : List Nat) (amt : Int) : ∀ (k j : Nat) (ps : List Player),
    j < ps.length →
    (creditSeatsFrom tied amt k ps).getD j defaultPlayer =
      (if tied.contains (k + j)
       then { ps.getD j defaultPlayer with
                chips := (ps.getD j defaultPlayer).chips + amt }
       else ps.getD j defaultPlayer)
  | k, j, [], h => by simp at h
  | k, 0, p :: ps, h => by simp [creditSeatsFrom]
  | k, j + 1, p :: ps, h => by
    have ih := creditSeatsFrom_getD tied amt (k + 1) j ps (by simpa using h)
    simp only [creditSeatsFrom, List.getD_cons_succ, ih]
    have harith : k + 1 + j = k + (j + 1) := by omega
    rw [harith]

theorem enumFilterFrom_mem (q : Player → Bool) : ∀ (k : Nat) (ps : List Player)
    (i : Nat) (p : Player), (i, p) ∈ enumFilterFrom q k ps →
    k ≤ i ∧ i - k < ps.length ∧ ps.getD (i - k) defaultPlayer = p ∧ q p = true
  | k, [], i, p, h => by simp [enumFilterFrom] at h
  | k, p0 :: ps, i, p, h => by
    by_cases hq : q p0 = true
    · simp only [enumFilterFrom, if_pos hq, List.mem_cons] at h
      rcases h with h | h
      · obtain ⟨h1, h2⟩ := Prod.mk.injEq .. ▸ h
        injection h with h1 h2
        subst h1
        subst h2
        exact ⟨le_rfl, by simp, by simp, hq⟩
      · obtain ⟨hk, hlen, hget, hqp⟩ := enumFilterFrom_mem q (k + 1) ps i p h
        refine ⟨by omega, by simp; omega, ?_, hqp⟩
        have : i - k = (i - (k + 1)) + 1 := by omega
        rw [this, List.getD_cons_succ]
        exact hget
    · simp only [enumFilterFrom, if_neg hq] at h
      obtain ⟨hk, hlen, hget, hqp⟩ := enumFilterFrom_mem q (k + 1) ps i p h
      refine ⟨by omega, by simp; omega, ?_, hqp⟩
      have : i - k = (i - (k + 1)) + 1 := by omega
      rw [this, List.getD_cons_succ]
      exact hget

theorem getD_zero_mem {α : Type} (l : List α) (d : α) (h : l.length = 1) :
    l.getD 0 d ∈ l := by
  match l with
  | [x] => simp

/-! ### Scan lemmas -/

theorem scanFrom_succ (ps : List Player) (q : Player → Bool) (i f : Nat) :
    scanFrom ps q i (f + 1) =
      match ps.get? i with
      | some p => if q p then some i else scanFrom ps q ((i + 1) % ps.length) f
      | none => none := rfl

theorem scanFrom_none_of_none (ps : List Player) (q : Player → Bool)
    (hq : ∀ p ∈ ps, q p = false) : ∀ (f i : Nat), scanFrom ps q i f = none := by
  intro f
  induction f with
  | zero => intro i; rfl
  | succ f ih =>
    intro i
    rw [scanFrom_succ]
    cases hget : ps.get? i with
    | none => rfl
    | some p => simp [hq p (List.get?_mem hget), ih ((i + 1) % ps.length)]

theorem scanFrom_mono (ps : List Player) (q : Player → Bool) :
    ∀ (f i : Nat) (r : Nat), scanFrom ps q i f = some r →
      ∀ e, scanFrom ps q i (f + e) = some r := by
  intro f
  induction f with
  | zero => intro i r h; simp [scanFrom] at h
  | succ f ih =>
    intro i r h e
    rw [show f + 1 + e = (f + e) + 1 by omega, scanFrom_succ]
    rw [scanFrom_succ] at h
    cases hget : ps.get? i with
    | none =>
      rw [hget] at h
      simp at h
    | some p =>
      rw [hget] at h
      by_cases hqp : q p = true
      · simp only [hqp, if_true] at h ⊢
        exact h
      · simp only [hqp, if_false, Bool.false_eq_true] at h ⊢
        exact ih ((i + 1) % ps.length) r h e

theorem scanFrom_isSome_of_exists (ps : List Player) (q : Player → Bool)
    (hn : 0 < ps.length) :
    ∀ (f i : Nat), i < ps.length →
      (∃ j < f, q (ps.getD ((i + j) % ps.length) defaultPlayer) = true) →
      (scanFrom ps q i f).isSome = true := by
  intro f
  induction f with
  | zero =>
    rintro i _ ⟨j, hj, _⟩
    omega
  | succ f ih =>
    rintro i hi ⟨j, hj, hqj⟩
    rw [scanFrom_succ]
    have hget : ps.get? i = some (ps.getD i defaultPlayer) := by
      rw [List.get?_eq_getElem?, List.getElem?_eq_getElem hi]
      simp [List.getD, List.getElem?_eq_getElem hi]
    rw [hget]
    dsimp only
    by_cases hq : q (ps.getD i defaultPlayer) = true
    · rw [if_pos hq]; rfl
    · rw [if_neg hq]
      match j with
      | 0 =>
        rw [Nat.add_zero, Nat.mod_eq_of_lt hi] at hqj
        exact absurd hqj hq
      | j2 + 1 =>
        apply ih ((i + 1) % ps.length) (Nat.mod_lt _ hn)
        refine ⟨j2, by omega, ?_⟩
        rw [Nat.mod_add_mod, show i + 1 + j2 = i + (j2 + 1) by omega]
        exact hqj

theorem exists_offset_of_mem (ps : List Player) (q : Player → Bool)
    (hp : ∃ p ∈ ps, q p = true) (i : Nat) (hi : i < ps.length) :
    ∃ j < ps.length, q (ps.getD ((i + j) % ps.length) defaultPlayer) = true := by
  obtain ⟨p, hmem, hq⟩ := hp
  obtain ⟨k, hk, hkp⟩ := List.mem_iff_getElem.mp hmem
  have hgetD : ps.getD k defaultPlayer = p := by
    simp [List.getD, List.getElem?_eq_getElem hk, hkp]
  by_cases hik : i ≤ k
  · refine ⟨k - i, by omega, ?_⟩
    rw [show i + (k - i) = k by omega, Nat.mod_eq_of_lt hk, hgetD]
    exact hq
  · refine ⟨k + ps.length - i, by omega, ?_⟩
    rw [show i + (k + ps.length - i) = k + ps.length by omega, Nat.add_mod_right,
      Nat.mod_eq_of_lt hk, hgetD]
    exact hq

theorem scanFrom_fuel_stable (ps : List Player) (q : Player → Bool) (i : Nat)
    (hi : ps.length = 0 ∨ i < ps.length) (extra : Nat) :
    scanFrom ps q i (ps.length + extra) = scanFrom ps q i ps.length := by
  by_cases hex : ∃ p ∈ ps, q p = true
  · have hn : 0 < ps.length := by
      obtain ⟨p, hp, _⟩ := hex
      exact List.length_pos.mpr (List.ne_nil_of_mem hp)
    have hilt : i < ps.length := by omega
    have hsome := scanFrom_isSome_of_exists ps q hn ps.length i hilt
      (exists_offset_of_mem ps q hex i hilt)
    obtain ⟨r, hr⟩ := Option.isSome_iff_exists.mp hsome
    rw [hr, scanFrom_mono ps q ps.length i r hr extra]
  · push_neg at hex
    have hq : ∀ p ∈ ps, q p = false := by
      intro p hp
      have := hex p hp
      simpa using this
    rw [scanFrom_none_of_none ps q hq, scanFrom_none_of_none ps q hq]

/-! ### Claim theorems -/

/-- C5: for every table state, with contenders the seats that are not folded,
not all-in and not eliminated, the betting round is reported closed exactly
when there is at most one contender, or every contender has acted and every
contender's bet equals the current bet. -/
theorem betting_complete_iff (g : GameState) :
    isBettingComplete g = true ↔
      ((contendersOf g).length ≤ 1 ∨
        ∀ p ∈ contendersOf g, p.hasActed = true ∧ p.bet = g.currentBet) := by
  have hallin : ∀ p ∈ contendersOf g, p.allIn = false := by
    intro p hp
    have hq := (List.mem_filter.mp hp).2
    simp [contenderQual] at hq
    exact hq.1.2
  unfold isBettingComplete
  by_cases hlen : (contendersOf g).length ≤ 1
  · simp [hlen]
  · simp only [if_neg hlen, Bool.and_eq_true, List.all_eq_true]
    constructor
    · rintro ⟨hA, hM⟩
      refine Or.inr fun p hp => ⟨hA p hp, ?_⟩
      have hm := hM p hp
      rw [hallin p hp] at hm
      simpa using hm
    · rintro (h | h)
      · exact absurd h hlen
      · exact ⟨fun p hp => (h p hp).1, fun p hp => by simp [(h p hp).2]⟩

/-- C7 counterexample: for {K♣K♦Q♣Q♦2♥} the two-pair kicker sequence is just
(K, Q) — the remaining card 2 is not included — and the comparison against
{K♣K♦J♣J♦A♥} is negative, i.e. the FIRST hand wins, not the second as
claimed. -/
theorem two_pair_kicker_counterexample :
    (evaluateFiveCardHand [⟨"K", "C", 13⟩, ⟨"K", "D", 13⟩, ⟨"Q", "C", 12⟩,
        ⟨"Q", "D", 12⟩, ⟨"2", "H", 2⟩]).kickers = [13, 12] ∧
    compareHands
      (evaluateFiveCardHand [⟨"K", "C", 13⟩, ⟨"K", "D", 13⟩, ⟨"Q", "C", 12⟩,
        ⟨"Q", "D", 12⟩, ⟨"2", "H", 2⟩])
      (evaluateFiveCardHand [⟨"K", "C", 13⟩, ⟨"K", "D", 13⟩, ⟨"J", "C", 11⟩,
        ⟨"J", "D", 11⟩, ⟨"A", "H", 14⟩]) < 0 := by decide

/-- C7 amended: both hands evaluate to Two Pair (category 2); the kicker
sequence of a two-pair hand is the pair values only, high pair then low pair,
with the remaining card not included; the comparison is decided at the
second kicker position (Q = 12 against J = 11), the first hand winning. -/
theorem two_pair_kicker_amended :
    evaluateFiveCardHand [⟨"K", "C", 13⟩, ⟨"K", "D", 13⟩, ⟨"Q", "C", 12⟩,
        ⟨"Q", "D", 12⟩, ⟨"2", "H", 2⟩] = ⟨2, "Two Pair", [13, 12], 13⟩ ∧
    evaluateFiveCardHand [⟨"K", "C", 13⟩, ⟨"K", "D", 13⟩, ⟨"J", "C", 11⟩,
        ⟨"J", "D", 11⟩, ⟨"A", "H", 14⟩] = ⟨2, "Two Pair", [13, 11], 13⟩ ∧
    cmpK [13, 12] [13, 11] = 11 - 12 ∧
    compareHands ⟨2, "Two Pair", [13, 12], 13⟩ ⟨2, "Two Pair", [13, 11], 13⟩ < 0 := by
  decide

/-- C8: the comparator is reflexive (`compare(h,h) = 0`), antisymmetric
(opposite values on swapped arguments), transitive on the strict
stronger-than relation, ranks a higher category as stronger (negative
result), and on equal categories is exactly the lexicographic comparison of
kicker sequences with missing entries read as 0. -/
theorem comparator_total_preorder (h h1 h2 h3 : HandEval) :
    compareHands h h = 0 ∧
    compareHands h1 h2 = -compareHands h2 h1 ∧
    (compareHands h1 h2 < 0 → compareHands h2 h3 < 0 → compareHands h1 h3 < 0) ∧
    (h2.rank < h1.rank → compareHands h1 h2 < 0) ∧
    (h1.rank = h2.rank →
      (compareHands h1 h2 < 0 ↔
        ∃ i, pad h2.kickers i < pad h1.kickers i ∧
          ∀ j < i, pad h1.kickers j = pad h2.kickers j)) := by
  refine ⟨compareHands_self h, compareHands_anti h1 h2,
    fun a b => compareHands_trans a b, ?_, ?_⟩
  · intro hlt
    rw [compareHands_neg_cases]
    exact Or.inl hlt
  · intro heq
    have hk : compareHands h1 h2 = cmpK h1.kickers h2.kickers := by
      simp [compareHands, heq]
    rw [hk, cmpK_neg_iff]

/-- C8 witness: transitivity applied at three concrete evaluated hands. -/
theorem comparator_total_preorder_witness :
    compareHands ⟨3, "Three of a Kind", [5], 5⟩ ⟨0, "High Card", [14, 10, 7, 3, 2], 14⟩ < 0 :=
  (comparator_total_preorder defaultEval ⟨3, "Three of a Kind", [5], 5⟩
    ⟨1, "Pair", [9], 9⟩ ⟨0, "High Card", [14, 10, 7, 3, 2], 14⟩).2.2.1
    (by decide) (by decide)

/-- C2 counterexample: a raise to 15 against current bet 20 is invalid, yet
the active seat index moves on (the raiser loses the turn), so the state is
not completely unchanged. -/
theorem invalid_raise_counterexample :
    (handlePlayerAction gInvalidRaise (PAction.raise 15)).activePlayerIndex ≠
      gInvalidRaise.activePlayerIndex := by decide

/-- C2 amended: an invalid raise (zero amount or amount not exceeding the
current bet) leaves every seat, the pot and the current bet unchanged, but
the round-closure flag is recomputed and, when the round is not closed, the
active seat index advances to the next contender. -/
theorem invalid_raise_amended (g : GameState) (amount : Int)
    (h : ¬(amount ≠ 0 ∧ amount > g.currentBet)) :
    handlePlayerAction g (PAction.raise amount) =
      { g with bettingComplete := isBettingComplete g,
               activePlayerIndex :=
                 if isBettingComplete g then g.activePlayerIndex
                 else getNextActivePlayer g } := by
  unfold handlePlayerAction applySwitch finishAction
  simp only [if_neg h]

/-- C2 amended witness: the rejected raise at the concrete table. -/
theorem invalid_raise_amended_witness :
    handlePlayerAction gInvalidRaise (PAction.raise 15) =
      { gInvalidRaise with
          bettingComplete := isBettingComplete gInvalidRaise,
          activePlayerIndex :=
            if isBettingComplete gInvalidRaise then gInvalidRaise.activePlayerIndex
            else getNextActivePlayer gInvalidRaise } :=
  invalid_raise_amended gInvalidRaise 15 (by decide)

/-- C3 bug witness: calling for the entire stack (amount 100 = pre-action
chips) leaves `allIn = false`, because the source compares the call amount
against the already-debited shared player object; calling for exactly half
the stack (amount 50, post-debit chips 50) wrongly sets `allIn = true` with
50 chips still behind.  The amount moved, the debit, the credit and
`hasActed` follow the claim. -/
theorem call_allin_flag_bug :
    (((handlePlayerAction gFullCall PAction.call).players.getD 0 defaultPlayer).chips = 0 ∧
     ((handlePlayerAction gFullCall PAction.call).players.getD 0 defaultPlayer).bet = 100 ∧
     ((handlePlayerAction gFullCall PAction.call).players.getD 0 defaultPlayer).hasActed = true ∧
     ((handlePlayerAction gFullCall PAction.call).players.getD 0 defaultPlayer).allIn = false) ∧
    (((handlePlayerAction gHalfCall PAction.call).players.getD 0 defaultPlayer).chips = 50 ∧
     ((handlePlayerAction gHalfCall PAction.call).players.getD 0 defaultPlayer).allIn = true) := by
  decide

/-- C9: both circular scans are insensitive to any fuel beyond one full cycle
of the seat count (one cycle already suffices), and when no qualifying seat
exists each returns its index unchanged. -/
theorem circular_scan_bounded (g : GameState) :
    ((∀ p ∈ g.players, contenderQual p = false) →
      getNextActivePlayer g = g.activePlayerIndex) ∧
    ((∀ p ∈ g.players, dealerQual p = false) →
      getNextDealerIndex g = g.dealerIndex) ∧
    (∀ extra : Nat,
      scanFrom g.players contenderQual ((g.activePlayerIndex + 1) % g.players.length)
        (g.players.length + extra) =
      scanFrom g.players contenderQual ((g.activePlayerIndex + 1) % g.players.length)
        g.players.length) ∧
    (∀ extra : Nat,
      scanFrom g.players dealerQual ((g.dealerIndex + 1) % g.players.length)
        (g.players.length + extra) =
      scanFrom g.players dealerQual ((g.dealerIndex + 1) % g.players.length)
        g.players.length) := by
  have hmod : ∀ k : Nat, g.players.length = 0 ∨ (k + 1) % g.players.length < g.players.length := by
    intro k
    by_cases hn : g.players.length = 0
    · exact Or.inl hn
    · exact Or.inr (Nat.mod_lt _ (by omega))
  refine ⟨?_, ?_, ?_, ?_⟩
  · intro hq
    unfold getNextActivePlayer
    rw [scanFrom_none_of_none g.players contenderQual hq]
    rfl
  · intro hq
    unfold getNextDealerIndex
    rw [scanFrom_none_of_none g.players dealerQual hq]
    rfl
  · intro extra
    exact scanFrom_fuel_stable g.players contenderQual _ (hmod g.activePlayerIndex) extra
  · intro extra
    exact scanFrom_fuel_stable g.players dealerQual _ (hmod g.dealerIndex) extra

/-- C9 witness: with no qualifying seat, the active-seat scan returns the
index unchanged, and one cycle of fuel already decides the dealer scan. -/
theorem circular_scan_bounded_witness :
    getNextActivePlayer gAllFolded = gAllFolded.activePlayerIndex ∧
    scanFrom gAllFolded.players dealerQual ((gAllFolded.dealerIndex + 1) %
        gAllFolded.players.length) (gAllFolded.players.length + 7) =
      scanFrom gAllFolded.players dealerQual ((gAllFolded.dealerIndex + 1) %
        gAllFolded.players.length) gAllFolded.players.length :=
  ⟨(circular_scan_bounded gAllFolded).1 (by decide),
   (circular_scan_bounded gAllFolded).2.2.2 7⟩

theorem raisedSeat_bet (p : Player) (amount : Int) :
    (raisedSeat p amount).bet = min amount (p.chips + p.bet) := by
  unfold raisedSeat
  dsimp only
  split <;> rfl

theorem raisedSeat_chips (p : Player) (amount : Int) :
    (raisedSeat p amount).chips = p.chips - (min amount (p.chips + p.bet) - p.bet) := by
  unfold raisedSeat
  dsimp only
  split <;> rfl

theorem raisedSeat_hasActed (p : Player) (amount : Int) :
    (raisedSeat p amount).hasActed = true := by
  unfold raisedSeat
  dsimp only
  split <;> rfl

theorem finishAction_players (s : GameState) : (finishAction s).players = s.players := rfl

theorem finishAction_currentBet (s : GameState) : (finishAction s).currentBet = s.currentBet := rfl

/-- C4: a raise by the active seat with amount above the current bet makes
the seat's total bet `min(amount, chips + bet)`, debits the delta, sets the
table's current bet to that total, marks the raiser as having acted, and
clears `hasActed` for exactly the other seats that are contenders, leaving
every other seat otherwise unchanged. -/
theorem raise_contract (g : GameState) (amount : Int)
    (hi : g.activePlayerIndex < g.players.length)
    (hcb : 0 ≤ g.currentBet) (hamt : g.currentBet < amount) :
    ((handlePlayerAction g (PAction.raise amount)).players.getD g.activePlayerIndex
        defaultPlayer).bet =
      min amount ((g.players.getD g.activePlayerIndex defaultPlayer).chips +
        (g.players.getD g.activePlayerIndex defaultPlayer).bet) ∧
    ((handlePlayerAction g (PAction.raise amount)).players.getD g.activePlayerIndex
        defaultPlayer).chips =
      (g.players.getD g.activePlayerIndex defaultPlayer).chips -
        (min amount ((g.players.getD g.activePlayerIndex defaultPlayer).chips +
            (g.players.getD g.activePlayerIndex defaultPlayer).bet) -
          (g.players.getD g.activePlayerIndex defaultPlayer).bet) ∧
    ((handlePlayerAction g (PAction.raise amount)).players.getD g.activePlayerIndex
        defaultPlayer).hasActed = true ∧
    (handlePlayerAction g (PAction.raise amount)).currentBet =
      min amount ((g.players.getD g.activePlayerIndex defaultPlayer).chips +
        (g.players.getD g.activePlayerIndex defaultPlayer).bet) ∧
    (∀ j, j < g.players.length → j ≠ g.activePlayerIndex →
      (handlePlayerAction g (PAction.raise amount)).players.getD j defaultPlayer =
        (if contenderQual (g.players.getD j defaultPlayer) = true
         then { g.players.getD j defaultPlayer with hasActed := false }
         else g.players.getD j defaultPlayer)) := by
  have hguard : amount ≠ 0 ∧ amount > g.currentBet := ⟨by omega, hamt⟩
  have hps : (handlePlayerAction g (PAction.raise amount)).players =
      clearOthersFrom g.activePlayerIndex 0
        (g.players.set g.activePlayerIndex
          (raisedSeat (g.players.getD g.activePlayerIndex defaultPlayer) amount)) := by
    unfold handlePlayerAction applySwitch
    dsimp only
    rw [if_pos hguard]
    rfl
  have hcb2 : (handlePlayerAction g (PAction.raise amount)).currentBet =
      min amount ((g.players.getD g.activePlayerIndex defaultPlayer).chips +
        (g.players.getD g.activePlayerIndex defaultPlayer).bet) := by
    unfold handlePlayerAction applySwitch
    dsimp only
    rw [if_pos hguard]
    rfl
  rw [hps, hcb2]
  have hlenset : (g.players.set g.activePlayerIndex
      (raisedSeat (g.players.getD g.activePlayerIndex defaultPlayer) amount)).length =
      g.players.length := by simp
  have hself :
      (clearOthersFrom g.activePlayerIndex 0
        (g.players.set g.activePlayerIndex
          (raisedSeat (g.players.getD g.activePlayerIndex defaultPlayer) amount))).getD
        g.activePlayerIndex defaultPlayer =
      raisedSeat (g.players.getD g.activePlayerIndex defaultPlayer) amount := by
    rw [clearOthersFrom_getD _ 0 _ _ (by rw [hlenset]; exact hi)]
    simp only [Nat.zero_add, bne_self_eq_false, Bool.false_and, Bool.false_eq_true,
      if_false]
    exact getD_set_eq _ _ _ _ (by simpa using hi)
  refine ⟨?_, ?_, ?_, rfl, ?_⟩
  · rw [hself, raisedSeat_bet]
  · rw [hself, raisedSeat_chips]
  · rw [hself, raisedSeat_hasActed]
  · intro j hj hne
    rw [clearOthersFrom_getD _ 0 _ _ (by rw [hlenset]; exact hj),
      getD_set_neq _ _ _ _ _ hne]
    have hb : ((0 + j : Nat) != g.activePlayerIndex) = true := by
      simp [hne]
    rw [hb]
    simp

/-- C4 witness: seat 4 raising to 60 sets the current bet to 60, marks seat 4
as having acted, and resets seat 3's (the big blind's) `hasActed`. -/
theorem raise_contract_witness :
    (handlePlayerAction gRaiseScenario (PAction.raise 60)).currentBet = 60 ∧
    ((handlePlayerAction gRaiseScenario (PAction.raise 60)).players.getD 4
        defaultPlayer).hasActed = true ∧
    ((handlePlayerAction gRaiseScenario (PAction.raise 60)).players.getD 3
        defaultPlayer).hasActed = false := by
  have h := raise_contract gRaiseScenario 60 (by decide) (by decide) (by decide)
  refine ⟨?_, h.2.2.1, ?_⟩
  · rw [h.2.2.2.1]
    decide
  · rw [h.2.2.2.2 3 (by decide) (by decide)]
    decide

theorem executeAI_earlyWin_eq (g : GameState) (d : Decision)
    (hbc : isBettingComplete (aiSwitch g d) = true)
    (hone : (aliveSeats (aiChecked g d)).length = 1) :
    executeAIAction g d =
      earlyWinPay (aiChecked g d) ((aliveSeats (aiChecked g d)).getD 0 (0, defaultPlayer)) := by
  unfold executeAIAction
  dsimp only
  rw [if_pos (show (aiChecked g d).bettingComplete = true from hbc), if_pos hone]

theorem aliveSeats_head_spec (s : GameState) (hone : (aliveSeats s).length = 1) :
    ((aliveSeats s).getD 0 (0, defaultPlayer)).1 < s.players.length ∧
    s.players.getD ((aliveSeats s).getD 0 (0, defaultPlayer)).1 defaultPlayer =
      ((aliveSeats s).getD 0 (0, defaultPlayer)).2 := by
  have hmem := getD_zero_mem (aliveSeats s) (0, defaultPlayer) hone
  rcases hW : (aliveSeats s).getD 0 (0, defaultPlayer) with ⟨wi, wp⟩
  rw [hW] at hmem
  have h := enumFilterFrom_mem aliveQual 0 s.players wi wp hmem
  simp only [Nat.sub_zero] at h
  exact ⟨h.2.1, h.2.2.1⟩

theorem earlyWinPay_bets (s : GameState) (w : Nat × Player) (j : Nat)
    (hj : j < s.players.length) :
    ((earlyWinPay s w).players.getD j defaultPlayer).bet = 0 := by
  unfold earlyWinPay
  dsimp only
  rw [getD_map_lt _ _ _ _ defaultPlayer (by simpa using hj)]

theorem earlyWinPay_chips (s : GameState) (w : Nat × Player)
    (hw : w.1 < s.players.length) :
    ((earlyWinPay s w).players.getD w.1 defaultPlayer).chips =
      w.2.chips + (s.pot + betSum s) := by
  unfold earlyWinPay
  dsimp only
  rw [getD_map_lt _ _ _ _ defaultPlayer (by simpa using hw),
    getD_set_eq _ _ _ _ hw]

/-- C6 amended: the immediate early win happens on the AI action path: when
applying a decision closes the round and exactly one non-folded,
non-eliminated seat remains, that seat is credited the pot plus all live
bets (as they stand after the closing action), the phase jumps straight to
showdown, all bets are cleared and the winner is recorded — without any hand
evaluation.  (The counterexample shows the human path does NOT do this.) -/
theorem early_win_ai_path (g : GameState) (d : Decision)
    (hbc : isBettingComplete (aiSwitch g d) = true)
    (hone : (aliveSeats (aiChecked g d)).length = 1) :
    (executeAIAction g d).phase = Phase.showdown ∧
    (executeAIAction g d).currentBet = 0 ∧
    (executeAIAction g d).winner =
      some ((aliveSeats (aiChecked g d)).getD 0 (0, defaultPlayer)).1 ∧
    (∀ j, j < (aiChecked g d).players.length →
      ((executeAIAction g d).players.getD j defaultPlayer).bet = 0) ∧
    ((executeAIAction g d).players.getD
        ((aliveSeats (aiChecked g d)).getD 0 (0, defaultPlayer)).1 defaultPlayer).chips =
      ((aiChecked g d).players.getD
          ((aliveSeats (aiChecked g d)).getD 0 (0, defaultPlayer)).1 defaultPlayer).chips +
        ((aiChecked g d).pot + betSum (aiChecked g d)) ∧
    (executeAIAction g d).pot = (aiChecked g d).pot + betSum (aiChecked g d) := by
  obtain ⟨hw, hwp⟩ := aliveSeats_head_spec (aiChecked g d) hone
  rw [executeAI_earlyWin_eq g d hbc hone]
  refine ⟨rfl, rfl, rfl, ?_, ?_, rfl⟩
  · intro j hj
    exact earlyWinPay_bets _ _ j hj
  · rw [earlyWinPay_chips _ _ hw, hwp]

/-- C6 counterexample: the human seat folding closes the round with exactly
one non-folded, non-eliminated seat remaining, yet nothing is paid out: the
phase stays preflop, seat 1's stack is unchanged, the pot and its live bet
are untouched.  The claimed immediate early win does not happen on the
human-submitted path. -/
theorem early_win_counterexample :
    isBettingComplete (handlePlayerAction gHumanFoldClose PAction.fold) = true ∧
    (aliveSeats (handlePlayerAction gHumanFoldClose PAction.fold)).length = 1 ∧
    (handlePlayerAction gHumanFoldClose PAction.fold).phase = Phase.preflop ∧
    ((handlePlayerAction gHumanFoldClose PAction.fold).players.getD 1
        defaultPlayer).chips = 500 ∧
    (handlePlayerAction gHumanFoldClose PAction.fold).pot = 30 := by decide

/-- C6 witness: the same closing fold issued through the AI path does pay
immediately: seat 1 receives pot 30 plus bets 100 and the phase jumps to
showdown. -/
theorem early_win_ai_path_witness :
    (executeAIAction gHumanFoldClose Decision.fold).phase = Phase.showdown ∧
    ((executeAIAction gHumanFoldClose Decision.fold).players.getD 1
        defaultPlayer).chips = 630 := by
  have h := early_win_ai_path gHumanFoldClose Decision.fold (by decide) (by decide)
  refine ⟨h.1, ?_⟩
  have hc := h.2.2.2.2.1
  rw [show ((aliveSeats (aiChecked gHumanFoldClose Decision.fold)).getD 0
      (0, defaultPlayer)).1 = 1 by decide] at hc
  rw [hc]
  decide

theorem foldedSeat_chips_add_bet (p : Player) :
    (foldedSeat p).chips + (foldedSeat p).bet = p.chips + p.bet := rfl

theorem calledSeat_chips_add_bet (p : Player) (cb : Int) :
    (calledSeat p cb).chips + (calledSeat p cb).bet = p.chips + p.bet := by
  unfold calledSeat
  dsimp only
  split <;> (dsimp only; ring)

theorem raisedSeat_chips_add_bet (p : Player) (amount : Int) :
    (raisedSeat p amount).chips + (raisedSeat p amount).bet = p.chips + p.bet := by
  rw [raisedSeat_chips, raisedSeat_bet]
  ring

theorem allinSeat_chips_add_bet (p : Player) :
    (allinSeat p).chips + (allinSeat p).bet = p.chips + p.bet := by
  unfold allinSeat
  dsimp only
  ring

theorem sums_set_seat (g : GameState) (i : Nat) (x : Player)
    (hx : x.chips + x.bet =
      (g.players.getD i defaultPlayer).chips + (g.players.getD i defaultPlayer).bet) :
    sumBy (fun p => p.chips) (g.players.set i x) + sumBy (fun p => p.bet) (g.players.set i x) =
      sumBy (fun p => p.chips) g.players + sumBy (fun p => p.bet) g.players := by
  by_cases hi : i < g.players.length
  · rw [sumBy_set _ _ _ _ hi, sumBy_set _ _ _ _ hi]
    omega
  · rw [setOOB _ _ _ hi]

theorem chipTotal_applySwitch (g : GameState) (a : PAction) :
    chipTotal (applySwitch g a) = chipTotal g := by
  cases a with
  | fold =>
    unfold applySwitch
    dsimp only
    unfold chipTotal betSum
    dsimp only
    rw [sums_set_seat g g.activePlayerIndex _ (foldedSeat_chips_add_bet _)]
  | call =>
    unfold applySwitch
    dsimp only
    unfold chipTotal betSum
    dsimp only
    rw [sums_set_seat g g.activePlayerIndex _ (calledSeat_chips_add_bet _ _)]
  | raise amount =>
    unfold applySwitch
    dsimp only
    by_cases hguard : amount ≠ 0 ∧ amount > g.currentBet
    · rw [if_pos hguard]
      unfold chipTotal betSum
      dsimp only
      rw [clearOthersFrom_sumBy (fun p => p.chips) (fun p => rfl) _ 0,
        clearOthersFrom_sumBy (fun p => p.bet) (fun p => rfl) _ 0,
        sums_set_seat g g.activePlayerIndex _ (raisedSeat_chips_add_bet _ _)]
    · rw [if_neg hguard]
  | allin =>
    unfold applySwitch
    dsimp only
    by_cases hguard : (g.players.getD g.activePlayerIndex defaultPlayer).chips +
        (g.players.getD g.activePlayerIndex defaultPlayer).bet > g.currentBet
    · rw [if_pos hguard]
      unfold chipTotal betSum
      dsimp only
      rw [clearOthersFrom_sumBy (fun p => p.chips) (fun p => rfl) _ 0,
        clearOthersFrom_sumBy (fun p => p.bet) (fun p => rfl) _ 0,
        sums_set_seat g g.activePlayerIndex _ (allinSeat_chips_add_bet _)]
    · rw [if_neg hguard]
      unfold chipTotal betSum
      dsimp only
      rw [sums_set_seat g g.activePlayerIndex _ (allinSeat_chips_add_bet _)]

theorem chipTotal_aiSwitch (g : GameState) (d : Decision) :
    chipTotal (aiSwitch g d) = chipTotal g := by
  cases d with
  | fold =>
    unfold aiSwitch
    dsimp only
    unfold chipTotal betSum
    dsimp only
    rw [sums_set_seat g g.activePlayerIndex _ (foldedSeat_chips_add_bet _)]
  | call =>
    unfold aiSwitch
    dsimp only
    unfold chipTotal betSum
    dsimp only
    rw [sums_set_seat g g.activePlayerIndex _ (calledSeat_chips_add_bet _ _)]
  | raise amount =>
    unfold aiSwitch
    dsimp only
    by_cases hguard : amount ≠ 0 ∧ amount > g.currentBet
    · rw [if_pos hguard]
      unfold chipTotal betSum
      dsimp only
      rw [clearOthersFrom_sumBy (fun p => p.chips) (fun p => rfl) _ 0,
        clearOthersFrom_sumBy (fun p => p.bet) (fun p => rfl) _ 0,
        sums_set_seat g g.activePlayerIndex _ (raisedSeat_chips_add_bet _ _)]
    · rw [if_neg hguard]

theorem chipTotal_collectBets (g : GameState) : chipTotal (collectBets g) = chipTotal g := by
  unfold chipTotal betSum collectBets
  dsimp only
  rw [sumBy_map, sumBy_map,
    sumBy_congr _ (fun p => p.chips) _ (fun p => rfl),
    sumBy_congr _ (fun _ => (0 : Int)) _ (fun p => rfl), sumBy_zero]
  unfold betSum
  ring

theorem resolveShowdown_phase (s0 : GameState) :
    (resolveShowdown s0).phase = Phase.showdown := by
  unfold resolveShowdown soleWin
  dsimp only
  split
  · rfl
  · split
    · split <;> rfl
    · rfl

theorem chipTotal_earlyWinPay (s : GameState) (w : Nat × Player)
    (hw : w.1 < s.players.length)
    (hwp : s.players.getD w.1 defaultPlayer = w.2) :
    chipTotal (earlyWinPay s w) = chipTotal s + (s.pot + betSum s) := by
  unfold chipTotal earlyWinPay betSum
  dsimp only
  rw [sumBy_map, sumBy_map,
    sumBy_congr _ (fun p => p.chips) _ (fun p => rfl),
    sumBy_congr _ (fun _ => (0 : Int)) _ (fun p => rfl), sumBy_zero,
    sumBy_set _ _ _ _ hw, hwp]
  dsimp only
  ring

/-- C1 counterexample: after the AI fold triggers the early win, the sum of
stacks plus live bets plus pot is NOT preserved — the winner is credited
pot + bets but the pot field is also left holding that amount, so the total
grows by exactly the paid amount (130 here). -/
theorem chip_conservation_counterexample :
    chipTotal (executeAIAction gEarlyTotal Decision.fold) ≠ chipTotal gEarlyTotal := by
  decide

/-- C1 amended: the sum of stacks + live bets + pot is invariant under every
human-path action (valid or rejected), under every AI action switch, and
under every phase advance except the river resolution; at an AI early win
the winner is credited pot + live bets, but because the pot field keeps the
paid amount for display, the combined total grows by exactly that amount
(payouts are not conservative in the stated sum). -/
theorem chip_conservation_amended (g : GameState) (a : PAction) (d : Decision) :
    chipTotal (handlePlayerAction g a) = chipTotal g ∧
    chipTotal (aiSwitch g d) = chipTotal g ∧
    (g.phase ≠ Phase.river → chipTotal (advancePhase g) = chipTotal g) ∧
    (isBettingComplete (aiSwitch g d) = true →
      (aliveSeats (aiChecked g d)).length = 1 →
      chipTotal (executeAIAction g d) =
        chipTotal g + ((aiChecked g d).pot + betSum (aiChecked g d))) := by
  have hchk : chipTotal (aiChecked g d) = chipTotal g := by
    have : chipTotal (aiChecked g d) = chipTotal (aiSwitch g d) := rfl
    rw [this, chipTotal_aiSwitch]
  refine ⟨?_, chipTotal_aiSwitch g d, ?_, ?_⟩
  · have hfin : chipTotal (handlePlayerAction g a) = chipTotal (applySwitch g a) := rfl
    rw [hfin, chipTotal_applySwitch]
  · intro hriver
    unfold advancePhase
    by_cases hguard : g.bettingComplete = false ∧ g.phase ≠ Phase.showdown
    · rw [if_pos hguard]
    · rw [if_neg hguard]
      dsimp only
      cases hph : g.phase with
      | river => exact absurd hph hriver
      | preflop => dsimp only; split <;> exact chipTotal_collectBets g
      | flop => dsimp only; split <;> exact chipTotal_collectBets g
      | turn => dsimp only; split <;> exact chipTotal_collectBets g
      | waiting => dsimp only; split <;> exact chipTotal_collectBets g
      | showdown => dsimp only; split <;> exact chipTotal_collectBets g
      | tournament_complete => dsimp only; split <;> exact chipTotal_collectBets g
  · intro hbc hone
    obtain ⟨hw, hwp⟩ := aliveSeats_head_spec (aiChecked g d) hone
    rw [executeAI_earlyWin_eq g d hbc hone,
      chipTotal_earlyWinPay (aiChecked g d) _ hw hwp, hchk]

/-- C1 witness: conservation at a concrete call, a concrete preflop advance,
and the exact early-win delta at the concrete table. -/
theorem chip_conservation_amended_witness :
    chipTotal (handlePlayerAction gEarlyTotal PAction.call) = chipTotal gEarlyTotal ∧
    chipTotal (advancePhase gEarlyTotal) = chipTotal gEarlyTotal ∧
    chipTotal (executeAIAction gEarlyTotal Decision.fold) =
      chipTotal gEarlyTotal + ((aiChecked gEarlyTotal Decision.fold).pot +
        betSum (aiChecked gEarlyTotal Decision.fold)) := by
  have h := chip_conservation_amended gEarlyTotal PAction.call Decision.fold
  exact ⟨h.1, h.2.2.1 (by decide), h.2.2.2 (by decide) (by decide)⟩

theorem collectBets_pot (g : GameState) : (collectBets g).pot = g.pot + betSum g := rfl

theorem collectBets_getD_chips (g : GameState) (j : Nat) (hj : j < g.players.length) :
    ((collectBets g).players.getD j defaultPlayer).chips =
      (g.players.getD j defaultPlayer).chips := by
  unfold collectBets
  dsimp only
  rw [getD_map_lt _ _ _ _ defaultPlayer hj]

theorem advancePhase_river_eq (g : GameState)
    (hphase : g.phase = Phase.river) (hbc : g.bettingComplete = true) :
    advancePhase g = resolveShowdown (collectBets g) := by
  unfold advancePhase
  rw [if_neg (by simp [hbc])]
  dsimp only
  rw [hphase]
  dsimp only
  rw [if_neg (by simp [resolveShowdown_phase])]

theorem resolveShowdown_tie_players (g : GameState) (w snd : Nat × HandEval)
    (rest : List (Nat × HandEval)) (tied : List Nat)
    (hlen : (aliveSeats (showdownState g)).length ≠ 1)
    (hsorted : showdownSorted (showdownState g) = w :: snd :: rest)
    (htie : compareHands w.2 snd.2 = 0)
    (htied : tied = ((w :: snd :: rest).filter
        (fun hv => compareHands hv.2 w.2 == 0)).map (fun hv => hv.1)) :
    (resolveShowdown (collectBets g)).players =
      creditSeatsFrom tied (Int.fdiv ((collectBets g).pot) (tied.length : Int)) 0
        (collectBets g).players ∧
    (resolveShowdown (collectBets g)).pot = 0 := by
  unfold showdownState at hlen hsorted
  unfold resolveShowdown
  rw [if_neg hlen, hsorted]
  simp only [List.get?_cons_succ, List.get?_cons_zero, List.getD_cons_zero]
  rw [if_pos htie, ← htied]
  exact ⟨rfl, rfl⟩

/-- C10: at the river showdown, when the sorted evaluations tie at the top,
each tied seat is credited exactly `floor(P / k)` where `P` is the pot plus
collected bets and `k` the number of tied seats; the pot is zeroed; every
other seat's stack is untouched, so `P mod k` chips leave play entirely. -/
theorem split_pot_floor (g : GameState) (w snd : Nat × HandEval)
    (rest : List (Nat × HandEval)) (tied : List Nat)
    (hphase : g.phase = Phase.river) (hbc : g.bettingComplete = true)
    (hlen : (aliveSeats (showdownState g)).length ≠ 1)
    (hsorted : showdownSorted (showdownState g) = w :: snd :: rest)
    (htie : compareHands w.2 snd.2 = 0)
    (htied : tied = ((w :: snd :: rest).filter
        (fun hv => compareHands hv.2 w.2 == 0)).map (fun hv => hv.1)) :
    (advancePhase g).pot = 0 ∧
    2 ≤ tied.length ∧
    (∀ j, j < g.players.length → j ∈ tied →
      ((advancePhase g).players.getD j defaultPlayer).chips =
        (g.players.getD j defaultPlayer).chips +
          Int.fdiv (g.pot + betSum g) (tied.length : Int)) ∧
    (∀ j, j < g.players.length → j ∉ tied →
      ((advancePhase g).players.getD j defaultPlayer).chips =
        (g.players.getD j defaultPlayer).chips) ∧
    (tied.length : Int) * Int.fdiv (g.pot + betSum g) (tied.length : Int) =
      (g.pot + betSum g) - Int.fmod (g.pot + betSum g) (tied.length : Int) := by
  obtain ⟨hplayers, hpot⟩ :=
    resolveShowdown_tie_players g w snd rest tied hlen hsorted htie htied
  have hadv := advancePhase_river_eq g hphase hbc
  have hlencb : (collectBets g).players.length = g.players.length := by
    unfold collectBets
    simp
  have hcw : (compareHands w.2 w.2 == 0) = true := by
    simp [compareHands_self]
  have hcs : (compareHands snd.2 w.2 == 0) = true := by
    rw [compareHands_anti snd.2 w.2, htie]
    decide
  refine ⟨by rw [hadv, hpot], ?_, ?_, ?_, ?_⟩
  · rw [htied]
    simp [List.filter_cons, hcw, hcs]
  · intro j hj hmem
    rw [hadv, hplayers,
      creditSeatsFrom_getD _ _ 0 j _ (by rw [hlencb]; exact hj)]
    have hcont : tied.contains (0 + j) = true := by
      simp [hmem]
    rw [hcont, if_pos rfl]
    dsimp only
    rw [collectBets_getD_chips g j hj, collectBets_pot]
  · intro j hj hmem
    rw [hadv, hplayers,
      creditSeatsFrom_getD _ _ 0 j _ (by rw [hlencb]; exact hj)]
    have hcont : tied.contains (0 + j) = false := by
      simp [hmem]
    rw [hcont, if_neg (by simp)]
    exact collectBets_getD_chips g j hj
  · have hk : (0 : Int) < (tied.length : Int) := by
      have : 2 ≤ tied.length := by
        rw [htied]
        simp [List.filter_cons, hcw, hcs]
      exact_mod_cast by omega
    have := Int.fdiv_add_fmod (g.pot + betSum g) (tied.length : Int)
    linarith

/-- C10 witness: with pot 101 split between the two tied seats, each gains
exactly 50 (floor of 101/2), the pot is zeroed and one chip disappears. -/
theorem split_pot_floor_witness :
    (advancePhase gSplit).pot = 0 ∧
    ((advancePhase gSplit).players.getD 0 defaultPlayer).chips = 1050 ∧
    ((advancePhase gSplit).players.getD 1 defaultPlayer).chips = 850 := by
  have h := split_pot_floor gSplit (0, ⟨9, "Royal Flush", [], 14⟩)
    (1, ⟨9, "Royal Flush", [], 14⟩) [] [0, 1] (by decide) (by decide) (by decide)
    (by decide) (by decide) (by decide)
  refine ⟨h.1, ?_, ?_⟩
  · rw [h.2.2.1 0 (by decide) (by decide)]
    decide
  · rw [h.2.2.1 1 (by decide) (by decide)]
    decide
